import Mathlib

/-
Verification development for the ARGB LED-matrix graphics library
(argb.h / argb.cpp, with the basicdemo text example).

The framebuffer is modelled as a total function from byte addresses to
byte values (`Nat → Nat`); the C code's in-place pointer walks become
explicit chains of single-cell stores.  Machine integers are modelled as
`Nat`/`Int` with explicit truncation: `% 256` for `byte` narrowing,
`% 65536` where the C code computes in 16-bit `unsigned int`, and a
signed 8-bit wrap for `char` arithmetic.  The build is configured with
ARGB_PANELS = 1, so ARGB_MAX_X = 8 and ARGB_MAX_Y = 8, and the buffers
hold 8 * 8 * 3 = 192 bytes.  Pixels are stored row-wise right-to-left:
pixel (x, y) occupies bytes 3 * ((7 - x) + 8 * y) + {0,1,2} in R,G,B
order, exactly as RGBDisplay::SetPixel addresses them.
-/

/-- Horizontal resolution, ARGB_MAX_X with ARGB_PANELS = 1. -/
def maxX : Nat := 8

/-- Vertical resolution, ARGB_MAX_Y. -/
def maxY : Nat := 8

/-- Size in bytes of one framebuffer (ARGB_MAX_X * ARGB_MAX_Y * 3). -/
def bufLen : Nat := 192

/-- Store of one byte at a Nat address of a buffer. -/
def wrN (i v : Nat) (buf : Nat → Nat) : Nat → Nat :=
  fun m => if m = i then v else buf m

/-- Store of one byte at an Int address (the C code computes pixel
addresses in signed arithmetic; negative addresses are out-of-contract
and never arise under the preconditions proved below). -/
def wrI (i : Int) (v : Nat) (buf : Nat → Nat) : Nat → Nat :=
  fun m => if (m : Int) = i then v else buf m

/-- Read of one byte at an Int address. -/
def rdI (buf : Nat → Nat) (i : Int) : Nat :=
  buf i.toNat

/-- Signed 8-bit (C `char` on AVR) wraparound of an Int. -/
def i8 (v : Int) : Int :=
  (v + 128) % 256 - 128

/-- Conversion of an Int to a C `byte` (unsigned 8-bit) value. -/
def b8i (v : Int) : Nat :=
  (v % 256).toNat

/-- Byte address of channel `ch` (0 = R, 1 = G, 2 = B) of pixel (x, y),
following the layout used by RGBDisplay::SetPixel. -/
def pixIdx (x y ch : Nat) : Nat :=
  3 * ((7 - x) + y * 8) + ch

/-- Channel `ch` (0 = R, 1 = G, 2 = B) of pixel (x, y) of a buffer. -/
def pixelChan (buf : Nat → Nat) (x y ch : Nat) : Nat :=
  buf (pixIdx x y ch)

/-- Channel `ch` (0 = R, 1 = G, 2 = B) of a packed ARGB color, which is
stored little-endian as bytes {B, G, R, A}: B is byte 0, G byte 1,
R byte 2, A byte 3. -/
def chanOf (color : Nat) (ch : Nat) : Nat :=
  if ch = 0 then color / 65536 % 256
  else if ch = 1 then color / 256 % 256
  else color % 256

/-- Alpha byte (byte 3) of a packed ARGB color. -/
def alphaOf (color : Nat) : Nat :=
  color / 16777216 % 256

/-- MakeARGB from argb.h: packs bytes {B, G, R, A} little-endian. -/
def makeARGB (a r g b : Nat) : Nat :=
  b % 256 + 256 * (g % 256) + 65536 * (r % 256) + 16777216 * (a % 256)

/-- RGBDisplay::SetPixel.  The byte pointer `pb` starts at the blue byte
of the addressed pixel and is decremented through green and red.  The
alpha byte `a` is taken from the color; `a1 = ~a = 255 - a`.  When
`a1 /= 0` each channel is alpha blended in 16-bit arithmetic; when
`a1 = 0` (that is `a = 255`) the channels are overwritten directly. -/
def setPixel (x y : Int) (color : Nat) (buf : Nat → Nat) : Nat → Nat :=
  let pb : Int := 2 + 3 * ((8 - 1 - x) + y * 8)
  let c_b := color % 256
  let c_g := color / 256 % 256
  let c_r := color / 65536 % 256
  let a := color / 16777216 % 256
  let a1 := 255 - a
  if a1 ≠ 0 then
    let buf1 := wrI pb ((a1 * rdI buf pb + a * c_b) % 65536 / 256) buf
    let buf2 := wrI (pb - 1) ((a1 * rdI buf1 (pb - 1) + a * c_g) % 65536 / 256) buf1
    wrI (pb - 2) ((a1 * rdI buf2 (pb - 2) + a * c_r) % 65536 / 256) buf2
  else
    wrI (pb - 2) c_r (wrI (pb - 1) c_g (wrI pb c_b buf))

/-- Store of one pixel's three bytes, as done by one `*(p++) = r;
*(p++) = g; *(p++) = b;` group of RGBDisplay::Fill.  The values are
stored in the order the source stores its local variables `r`, `g`,
`b`. -/
def fillPix (r g b : Nat) (p : Nat) (buf : Nat → Nat) : Nat → Nat :=
  wrN (p + 2) b (wrN (p + 1) g (wrN p r buf))

/-- Loop of RGBDisplay::Fill: `cnt` iterations, each writing four
pixels (the source unrolls the four pixel stores inside one loop
body). -/
def fillLoop (r g b : Nat) : Nat → Nat → (Nat → Nat) → (Nat → Nat)
  | 0, _, buf => buf
  | cnt + 1, p, buf =>
      fillLoop r g b cnt (p + 12)
        (fillPix r g b (p + 9) (fillPix r g b (p + 6) (fillPix r g b (p + 3) (fillPix r g b p buf))))

/-- RGBDisplay::Fill.  The local bytes are extracted exactly as in the
source: `byte b = color; byte r = color >> 8; byte g = color >> 16;`
(note that per the MakeARGB packing, `color >> 8` is the G channel and
`color >> 16` is the R channel, so the variables named `r` and `g`
actually hold the color's G and R channels respectively).  The loop
count is ARGB_MAX_X * ARGB_MAX_Y / 4 = 16. -/
def fill (color : Nat) (buf : Nat → Nat) : Nat → Nat :=
  let b := color % 256
  let r := color / 256 % 256
  let g := color / 65536 % 256
  fillLoop r g b 16 0 buf

/-- Update of one byte by RGBDisplay::Fade:
`*pb = ((unsigned int)alpha * (*pb)) >> 8` in 16-bit arithmetic. -/
def fadeCell (alpha : Nat) (p : Nat) (buf : Nat → Nat) : Nat → Nat :=
  wrN p (alpha * buf p % 65536 / 256) buf

/-- Run of `j` consecutive fade byte-updates starting at address `p`
(the source unrolls twelve of these inside one loop body). -/
def fadeRun (alpha : Nat) : Nat → Nat → (Nat → Nat) → (Nat → Nat)
  | 0, _, buf => buf
  | j + 1, p, buf => fadeRun alpha j (p + 1) (fadeCell alpha p buf)

/-- Loop of RGBDisplay::Fade: `cnt` iterations of twelve byte updates
each. -/
def fadeLoop (alpha : Nat) : Nat → Nat → (Nat → Nat) → (Nat → Nat)
  | 0, _, buf => buf
  | cnt + 1, p, buf => fadeLoop alpha cnt (p + 12) (fadeRun alpha 12 p buf)

/-- RGBDisplay::Fade, with loop count ARGB_MAX_X * ARGB_MAX_Y / 4 = 16
covering all 192 bytes. -/
def fade (alpha : Nat) (buf : Nat → Nat) : Nat → Nat :=
  fadeLoop alpha 16 0 buf

/-- BlendARGB from argb.cpp: blends two packed colors channel-wise with
`ratio0` (weight of the second color) and its complement, both scaled by
`fade0` unless `fade0 = 255`; the alpha bytes are blended with the
unscaled ratios. -/
def blendARGB (c1 c2 : Nat) (ratio0 fade0 : Nat) : Nat :=
  let ratio1 := ratio0
  let ratio2 := 255 - ratio0
  let ratio1 := if fade0 ≠ 255 then fade0 * ratio1 % 65536 / 256 else ratio1
  let ratio2 := if fade0 ≠ 255 then fade0 * ratio2 % 65536 / 256 else ratio2
  let b := (ratio2 * (c1 % 256) + ratio1 * (c2 % 256)) % 65536 / 256
  let g := (ratio2 * (c1 / 256 % 256) + ratio1 * (c2 / 256 % 256)) % 65536 / 256
  let r := (ratio2 * (c1 / 65536 % 256) + ratio1 * (c2 / 65536 % 256)) % 65536 / 256
  let a := ((255 - ratio0) * (c1 / 16777216 % 256) + ratio0 * (c2 / 16777216 % 256)) % 65536 / 256
  makeARGB a r g b

/-- BaseColors table from argb.cpp: twelve packed colors. -/
def BaseColors : List Nat :=
  [0xFFFF0000, 0xFFFF2000, 0xFFFF8000, 0xFF808000,
   0xFF008000, 0xFF008080, 0xFF0080FF, 0xFF0020FF,
   0xFF0000FF, 0xFF8000FF, 0xFFFF00FF, 0xFFFF0080]

/-- GetBaseColor from argb.cpp: reads BaseColors at index `c % 12`. -/
def getBaseColor (c : Nat) : Nat :=
  BaseColors.getD (c % 12) 0

/-- BlendBaseColors from argb.cpp: blends the two table entries at the
indices reduced mod 12. -/
def blendBaseColors (c1 c2 blend fade0 : Nat) : Nat :=
  blendARGB (BaseColors.getD (c1 % 12) 0) (BaseColors.getD (c2 % 12) 0) blend fade0

/-- Copy of one pixel's three bytes by RGBDisplay::ScrollLeft:
`*pto = *(pto - 3*steps); pto--;` three times, for the B, G and R
bytes. -/
def copy3 (k : Nat) (pto : Int) (buf : Nat → Nat) : Nat → Nat :=
  let b1 := wrI pto (rdI buf (pto - 3 * k)) buf
  let b2 := wrI (pto - 1) (rdI b1 (pto - 1 - 3 * k)) b1
  wrI (pto - 2) (rdI b2 (pto - 2 - 3 * k)) b2

/-- Zeroing of one pixel's three bytes by RGBDisplay::ScrollLeft:
`*pto = 0; pto--;` three times. -/
def zero3 (pto : Int) (buf : Nat → Nat) : Nat → Nat :=
  wrI (pto - 2) 0 (wrI (pto - 1) 0 (wrI pto 0 buf))

/-- Shift loop of RGBDisplay::ScrollLeft: `cnt` iterations, each copying
three bytes from `pto - 3*steps` to `pto` and decrementing `pto`; one
iteration is definitionally a `copy3`. -/
def scrollShiftLoop (k : Nat) : Nat → Int → (Nat → Nat) → Int × (Nat → Nat)
  | 0, pto, buf => (pto, buf)
  | cnt + 1, pto, buf =>
      let b1 := wrI pto (rdI buf (pto - 3 * k)) buf
      let b2 := wrI (pto - 1) (rdI b1 (pto - 1 - 3 * k)) b1
      let b3 := wrI (pto - 2) (rdI b2 (pto - 2 - 3 * k)) b2
      scrollShiftLoop k cnt (pto - 3) b3

/-- Zero loop of RGBDisplay::ScrollLeft: `cnt` iterations, each zeroing
three bytes at `pto` and decrementing `pto`; one iteration is
definitionally a `zero3`. -/
def scrollZeroLoop : Nat → Int → (Nat → Nat) → Int × (Nat → Nat)
  | 0, pto, buf => (pto, buf)
  | cnt + 1, pto, buf =>
      scrollZeroLoop cnt (pto - 3) (wrI (pto - 2) 0 (wrI (pto - 1) 0 (wrI pto 0 buf)))

/-- Line loop of RGBDisplay::ScrollLeft: for each of the remaining
`line` rows, shift `ARGB_MAX_X - steps` pixels, zero `steps` pixels,
then advance `pto` by `ARGB_MAX_X * 2 * 3` to the next row's leftmost
blue byte. -/
def scrollLines (k : Nat) : Nat → Int → (Nat → Nat) → (Nat → Nat)
  | 0, _, buf => buf
  | line + 1, pto, buf =>
      let sr := scrollShiftLoop k (b8i (8 - (k : Int))) pto buf
      let zr := scrollZeroLoop k sr.1 sr.2
      scrollLines k line (zr.1 + 48) zr.2

/-- RGBDisplay::ScrollLeft: `pto` starts at the leftmost blue byte of
the first row, `3 * (ARGB_MAX_X - 1) + 2 = 23`, and all ARGB_MAX_Y = 8
rows are processed. -/
def scrollLeft (k : Nat) (buf : Nat → Nat) : Nat → Nat :=
  scrollLines k 8 23 buf

/-- Time-of-day increment from the TIMER1 ISR:
`ARGB_clock_tod++; if (ARGB_clock_tod >= 86400) ARGB_clock_tod = 0;`. -/
def todWrap (tod : Nat) : Nat :=
  let t := tod + 1
  if 86400 ≤ t then 0 else t

/-- Timekeeping step run by the TIMER1 ISR at each end of frame, acting
on the pair (ARGB_clock_ms, ARGB_clock_tod): the millisecond counter
advances by 1000 / ARGB_FRAMERATE = 8, and on reaching 1000 it resets
and the time-of-day counter increments with wraparound at 86400. -/
def isrClockFrame (s : Nat × Nat) : Nat × Nat :=
  let ms := s.1 + 1000 / 125
  if 1000 ≤ ms then (0, todWrap s.2) else (ms, s.2)

/-- Coordinate pair lies inside the active framebuffer. -/
def inBounds (p : Int × Int) : Prop :=
  0 ≤ p.1 ∧ p.1 < 8 ∧ 0 ≤ p.2 ∧ p.2 < 8

instance (p : Int × Int) : Decidable (inBounds p) := by
  unfold inBounds; infer_instance

/-- Clip loop shared by HLine, VLine and FillRect:
`while (x < 0 && w) { x++; w--; }`. -/
def clipNeg : Int → Nat → Int × Nat
  | x, 0 => (x, 0)
  | x, w + 1 => if x < 0 then clipNeg (x + 1) w else (x, w + 1)

/-- Draw loop of RGBDisplay::HLine:
`while (w-- && (x < ARGB_MAX_X)) SetPixel(x++, y, color);`, recorded as
the list of SetPixel coordinates. -/
def hlineDraw (y : Int) : Int → Nat → List (Int × Int)
  | _, 0 => []
  | x, w + 1 => if x < 8 then (x, y) :: hlineDraw y (x + 1) w else []

/-- RGBDisplay::HLine as the list of SetPixel invocations it makes. -/
def hlineWrites (x y : Int) (w : Nat) : List (Int × Int) :=
  if 0 ≤ y ∧ y < 8 then
    let c := clipNeg x w
    hlineDraw y c.1 c.2
  else []

/-- Draw loop of RGBDisplay::VLine:
`while (w-- && (y < ARGB_MAX_Y)) SetPixel(x, y++, color);`. -/
def vlineDraw (x : Int) : Int → Nat → List (Int × Int)
  | _, 0 => []
  | y, w + 1 => if y < 8 then (x, y) :: vlineDraw x (y + 1) w else []

/-- RGBDisplay::VLine as the list of SetPixel invocations it makes. -/
def vlineWrites (x y : Int) (w : Nat) : List (Int × Int) :=
  if 0 ≤ x ∧ x < 8 then
    let c := clipNeg y w
    vlineDraw x c.1 c.2
  else []

/-- RGBDisplay::DrawRect as the list of SetPixel invocations: two HLine
calls of byte width `x2 - x1 + 1`, and when `y1 < y2` two VLine calls of
byte height `y2 - y1 - 1`. -/
def drawRectWrites (x1 y1 x2 y2 : Int) : List (Int × Int) :=
  hlineWrites x1 y1 (b8i (x2 - x1 + 1)) ++
  hlineWrites x1 y2 (b8i (x2 - x1 + 1)) ++
  (if y1 < y2 then
    vlineWrites x1 (y1 + 1) (b8i (y2 - y1 - 1)) ++
    vlineWrites x2 (y1 + 1) (b8i (y2 - y1 - 1))
  else [])

/-- Tail pixel loop of one FillRect row:
`while (tw-- && (tx < ARGB_MAX_X)) SetPixel(tx++, y, color);`. -/
def fillRowB (y : Int) : Int → Nat → List (Int × Int)
  | _, 0 => []
  | tx, tw + 1 => if tx < 8 then (tx, y) :: fillRowB y (tx + 1) tw else []

/-- Unrolled head loop of one FillRect row:
`while (tw >= 4 && tx < (ARGB_MAX_X - 3))` draws four pixels per
iteration, then the tail loop runs on the remainder. -/
def fillRowA (y : Int) : Int → Nat → List (Int × Int)
  | tx, tw + 4 =>
      if tx < 5 then
        (tx, y) :: (tx + 1, y) :: (tx + 2, y) :: (tx + 3, y) :: fillRowA y (tx + 4) tw
      else fillRowB y tx (tw + 4)
  | tx, 0 => fillRowB y tx 0
  | tx, 1 => fillRowB y tx 1
  | tx, 2 => fillRowB y tx 2
  | tx, 3 => fillRowB y tx 3

/-- Row loop of RGBDisplay::FillRect:
`while (h-- && (y < ARGB_MAX_Y))` draws one clipped row and advances
`y`. -/
def fillRectRows (x : Int) (w : Nat) : Int → Nat → List (Int × Int)
  | _, 0 => []
  | y, h + 1 => if y < 8 then fillRowA y x w ++ fillRectRows x w (y + 1) h else []

/-- RGBDisplay::FillRect as the list of SetPixel invocations: clip `x`
and `y` against 0, then fill row by row. -/
def fillRectWrites (x y : Int) (w h : Nat) : List (Int × Int) :=
  let cx := clipNeg x w
  let cy := clipNeg y h
  fillRectRows cx.1 cx.2 cy.1 cy.2

/-- One Bresenham state update shared by DrawCircle and FillCircle, on
`char` (signed 8-bit) state (x, y, err):
`e2 = err; if (e2 <= y) { err += ++y*2+1; if (-x == y && e2 <= x) e2 = 0; }
if (e2 > x) err += ++x*2+1;`. -/
def circleStep (x y err : Int) : Int × Int × Int :=
  let e2 := err
  let y' := if e2 ≤ y then i8 (y + 1) else y
  let err' := if e2 ≤ y then i8 (err + (2 * i8 (y + 1) + 1)) else err
  let e2' := if e2 ≤ y ∧ -x = y' ∧ e2 ≤ x then 0 else e2
  let x' := if x < e2' then i8 (x + 1) else x
  let err'' := if x < e2' then i8 (err' + (2 * i8 (x + 1) + 1)) else err'
  (x', y', err'')

/-- Do-while loop of RGBDisplay::DrawCircle, bounded by `fuel`
iterations: each iteration makes four unclipped SetPixel calls at the
quadrant points, then updates the state and continues while
`x <= 0`. -/
def drawCircleLoop (poX poY : Int) : Nat → Int → Int → Int → List (Int × Int)
  | 0, _, _, _ => []
  | fuel + 1, x, y, err =>
      [(poX - x, poY + y), (poX + x, poY + y), (poX + x, poY - y), (poX - x, poY - y)] ++
      (if (circleStep x y err).1 ≤ 0 then
        drawCircleLoop poX poY fuel (circleStep x y err).1 (circleStep x y err).2.1
          (circleStep x y err).2.2
      else [])

/-- RGBDisplay::DrawCircle as the list of SetPixel invocations it makes
within `fuel` loop iterations, starting from
`char x = -r, y = 0, err = 2 - 2*r`. -/
def drawCircleWrites (fuel : Nat) (poX poY : Int) (r : Nat) : List (Int × Int) :=
  drawCircleLoop poX poY fuel (i8 (-(r : Int))) 0 (i8 (2 - 2 * (r : Int)))

/-- Do-while loop of RGBDisplay::FillCircle, bounded by `fuel`
iterations: each iteration draws two VLine spans of byte height `2*y`,
then updates the state and continues while `x <= 0`. -/
def fillCircleLoop (poX poY : Int) : Nat → Int → Int → Int → List (Int × Int)
  | 0, _, _, _ => []
  | fuel + 1, x, y, err =>
      vlineWrites (poX - x) (poY - y) (b8i (2 * y)) ++
      vlineWrites (poX + x) (poY - y) (b8i (2 * y)) ++
      (if (circleStep x y err).1 ≤ 0 then
        fillCircleLoop poX poY fuel (circleStep x y err).1 (circleStep x y err).2.1
          (circleStep x y err).2.2
      else [])

/-- RGBDisplay::FillCircle as the list of SetPixel invocations it makes
within `fuel` loop iterations. -/
def fillCircleWrites (fuel : Nat) (poX poY : Int) (r : Nat) : List (Int × Int) :=
  fillCircleLoop poX poY fuel (i8 (-(r : Int))) 0 (i8 (2 - 2 * (r : Int)))

/-- Main loop of RGBDisplay::DrawLine, bounded by `fuel` iterations.
Each iteration draws the current point if it lies in bounds, computes
`char e2 = 2*err`, and applies the two Bresenham branch updates with
their break conditions. -/
def drawLineLoop (x1 y1 dx dy sx sy : Int) : Nat → Int → Int → Int → List (Int × Int)
  | 0, _, _, _ => []
  | fuel + 1, x0, y0, err =>
      (if 0 ≤ x0 ∧ x0 < 8 ∧ 0 ≤ y0 ∧ y0 < 8 then [(x0, y0)] else []) ++
      (if dy ≤ i8 (2 * err) then
        if x0 = x1 then []
        else
          if i8 (2 * err) ≤ dx then
            if y0 = y1 then []
            else drawLineLoop x1 y1 dx dy sx sy fuel (x0 + sx) (y0 + sy)
              (i8 (i8 (err + dy) + dx))
          else drawLineLoop x1 y1 dx dy sx sy fuel (x0 + sx) y0 (i8 (err + dy))
      else
        if i8 (2 * err) ≤ dx then
          if y0 = y1 then []
          else drawLineLoop x1 y1 dx dy sx sy fuel x0 (y0 + sy) (i8 (err + dx))
        else drawLineLoop x1 y1 dx dy sx sy fuel x0 y0 err)

/-- RGBDisplay::DrawLine as the list of SetPixel invocations it makes
within `fuel` loop iterations, with `char dx = abs(x1-x0)`,
`char dy = -abs(y1-y0)`, unit steps `sx`, `sy`, and
`char err = dx + dy`. -/
def drawLineWrites (fuel : Nat) (x0 y0 x1 y1 : Int) : List (Int × Int) :=
  let dx := i8 |x1 - x0|
  let sx : Int := if x0 < x1 then 1 else -1
  let dy := i8 (-|y1 - y0|)
  let sy : Int := if y0 < y1 then 1 else -1
  drawLineLoop x1 y1 dx dy sx sy fuel x0 y0 (i8 (dx + dy))

/-- Table numberFont from argb.cpp: thirteen glyphs of three column
bytes each (digits 0-9, colon, H, M); the low bit of a column byte is
the top row. -/
def numberFont : List (List Nat) :=
  [[0x1F, 0x11, 0x1F],
   [0x00, 0x00, 0x1F],
   [0x1D, 0x15, 0x17],
   [0x15, 0x15, 0x1F],
   [0x07, 0x04, 0x1F],
   [0x17, 0x15, 0x1D],
   [0x1F, 0x15, 0x1D],
   [0x01, 0x01, 0x1F],
   [0x1F, 0x15, 0x1F],
   [0x17, 0x15, 0x1F],
   [0x0A, 0x00, 0x00],
   [0x1F, 0x04, 0x1F],
   [0x1F, 0x06, 0x1F]]

/-- Column byte `i` of numberFont glyph `d`; indices past the table
(digit 13 and above, which in the C code read adjacent flash) read as
0. -/
def numberFontAt (d i : Nat) : Nat :=
  (numberFont.getD d []).getD i 0

/-- Inner row loop of RGBDisplay::DrawDigit over bit rows `y` (the
remaining count is `rem`, the current row `y`): a pixel is drawn at
`(plotx, py + y)` when that row is in bounds and bit `y` of the column
byte is set. -/
def digitColAux (cdata : Nat) (plotx py : Int) : Nat → Nat → List (Int × Int)
  | _, 0 => []
  | y, rem + 1 =>
      if (0 ≤ py + y ∧ py + y < 8) ∧ cdata.testBit y then
        (plotx, py + y) :: digitColAux cdata plotx py (y + 1) rem
      else digitColAux cdata plotx py (y + 1) rem

/-- Column loop of RGBDisplay::DrawDigit over columns `i` (remaining
count `rem`): a column is drawn only when `px + i` is in bounds. -/
def digitCols (digit : Nat) (px py : Int) : Nat → Nat → List (Int × Int)
  | _, 0 => []
  | i, rem + 1 =>
      (if 0 ≤ px + i ∧ px + i < 8 then digitColAux (numberFontAt digit i) (px + i) py 0 8
       else []) ++
      digitCols digit px py (i + 1) rem

/-- RGBDisplay::DrawDigit as the list of SetPixel invocations it
makes: three columns of eight bit rows, both axes clipped. -/
def drawDigitWrites (digit : Nat) (px py : Int) : List (Int × Int) :=
  digitCols digit px py 0 3

/-- RGBDisplay::BlendDigits as the list of SetPixel invocations: if the
digits are equal the blend is forced to 0; `shift = blend / 32`; digit1
is drawn at `py - shift` unless it is the sentinel 255, digit2 at
`py - shift + 7` when the blend is nonzero and digit2 is not 255. -/
def blendDigitsWrites (digit1 digit2 blend : Nat) (px py : Int) : List (Int × Int) :=
  let blend := if digit1 = digit2 then 0 else blend
  let shift := blend / 32
  (if digit1 ≠ 255 then drawDigitWrites digit1 px (py - shift) else []) ++
  (if blend ≠ 0 ∧ digit2 ≠ 255 then drawDigitWrites digit2 px (py - shift + 7) else [])

/-- Glyph index computed by RGBDisplay::DrawChar: ASCII codes outside
[0x20, 0x7E] are replaced by the hyphen 0x2D, then 0x20 is
subtracted. -/
def glyphIndex (ascii : Nat) : Nat :=
  (if ascii < 0x20 ∨ 0x7E < ascii then 0x2D else ascii) - 0x20

/-- Inner bit loop of RGBDisplay::DrawChar over rows `f` (remaining
count `rem`): a pixel is drawn at `(x, py + f)` whenever bit `f` of the
column byte is set; the row coordinate is not clipped. -/
def charColWrites (col : Nat) (x py : Int) : Nat → Nat → List (Int × Int)
  | _, 0 => []
  | f, rem + 1 =>
      if col.testBit f then (x, py + f) :: charColWrites col x py (f + 1) rem
      else charColWrites col x py (f + 1) rem

/-- Column loop of RGBDisplay::DrawChar over `i = 7 .. 0` (the argument
is `i + 1`, i.e. the number of columns still to process), threading the
`width` accumulator: on the first nonzero column (while `width = 0`) the
width is set to `i`; a nonzero column is drawn when `px + i` is in
x-range. -/
def drawCharLoop (font : Nat → Nat → Nat) (g : Nat) (px py : Int) :
    Nat → Nat → Nat × List (Int × Int)
  | 0, width => (width, [])
  | i + 1, width =>
      let col := font g i
      if col ≠ 0 then
        let width' := if width = 0 then i else width
        let ws := if 0 ≤ px + i ∧ px + i < 8 then charColWrites col (px + i) py 0 8 else []
        let rest := drawCharLoop font g px py i width'
        (rest.1, ws ++ rest.2)
      else drawCharLoop font g px py i width

/-- RGBDisplay::DrawChar, parameterized by the glyph table `font`
(font.c is not part of the sources; `font g i` is column byte `i` of
glyph `g`): returns the computed width and the list of SetPixel
invocations. -/
def drawCharFull (font : Nat → Nat → Nat) (ascii : Nat) (px py : Int) :
    Nat × List (Int × Int) :=
  drawCharLoop font (glyphIndex ascii) px py 8 0

/-- Modelled from the spec: the glyph table `simpleFont` of font.c is
absent from the sources; only the placeholder glyph is needed here, and
the spec fixes it to be a hyphen.  The hyphen (glyph index
0x2D - 0x20 = 13) is modelled as a horizontal mid-height bar spanning
columns 1 to 4; all other columns and glyphs are left blank. -/
def simpleFontModel (g i : Nat) : Nat :=
  if g = 13 ∧ 1 ≤ i ∧ i ≤ 4 then 0x08 else 0

/-- Index of the rightmost nonzero column strictly below `n` of a glyph
column function, 0 when all such columns are zero (the value the
amended width claim refers to). -/
def rightmostSetCol (col : Nat → Nat) : Nat → Nat
  | 0 => 0
  | n + 1 => if col n ≠ 0 then n else rightmostSetCol col n

theorem drawCharLoop_fst_of_ne (font : Nat → Nat → Nat) (g : Nat) (px py : Int) :
    ∀ (n width : Nat), width ≠ 0 → (drawCharLoop font g px py n width).1 = width := by
  intro n
  induction n with
  | zero => intro width _; rfl
  | succ n ih =>
      intro width hw
      unfold drawCharLoop
      dsimp only
      by_cases hcol : font g n ≠ 0
      · rw [if_pos hcol, if_neg hw]
        exact ih width hw
      · rw [if_neg hcol]
        exact ih width hw

theorem drawCharLoop_fst_zero (font : Nat → Nat → Nat) (g : Nat) (px py : Int) :
    ∀ n : Nat, (drawCharLoop font g px py n 0).1 = rightmostSetCol (font g) n := by
  intro n
  induction n with
  | zero => rfl
  | succ n ih =>
      unfold drawCharLoop rightmostSetCol
      dsimp only
      by_cases hcol : font g n ≠ 0
      · rw [if_pos hcol, if_pos hcol, if_pos rfl]
        rcases Nat.eq_zero_or_pos n with rfl | hn
        · exact ih
        · exact drawCharLoop_fst_of_ne font g px py n n (by omega)
      · rw [if_neg hcol, if_neg hcol]
        exact ih

theorem rightmostSetCol_gt (col : Nat → Nat) :
    ∀ n j, rightmostSetCol col n < j → j < n → col j = 0 := by
  intro n
  induction n with
  | zero => intro j _ h; omega
  | succ n ih =>
      intro j h1 h2
      unfold rightmostSetCol at h1
      split_ifs at h1 with hc
      · omega
      · rcases Nat.lt_succ_iff_lt_or_eq.mp h2 with h | rfl
        · exact ih j h1 h
        · by_contra hne
          exact hc hne

theorem rightmostSetCol_ne (col : Nat → Nat) :
    ∀ n, rightmostSetCol col n ≠ 0 → col (rightmostSetCol col n) ≠ 0 := by
  intro n
  induction n with
  | zero => intro h; exact absurd rfl h
  | succ n ih =>
      intro h
      unfold rightmostSetCol at h ⊢
      split_ifs at h ⊢ with hc
      · exact hc
      · exact ih h

/-- Claim C3 (amended): for every font, ASCII code and position,
DrawChar returns the index of the rightmost set column of the selected
glyph's bitmap, i.e. the largest column index whose byte is nonzero
(and 0 when the glyph has no set column; a glyph whose only set column
is column 0 also yields 0). -/
theorem drawChar_width_rightmost :
    ∀ (font : Nat → Nat → Nat) (ascii : Nat) (px py : Int),
      (drawCharFull font ascii px py).1 = rightmostSetCol (font (glyphIndex ascii)) 8 ∧
      (∀ j, (drawCharFull font ascii px py).1 < j → j < 8 →
        font (glyphIndex ascii) j = 0) ∧
      ((drawCharFull font ascii px py).1 ≠ 0 →
        font (glyphIndex ascii) ((drawCharFull font ascii px py).1) ≠ 0) := by
  intro font ascii px py
  have h : (drawCharFull font ascii px py).1 = rightmostSetCol (font (glyphIndex ascii)) 8 :=
    drawCharLoop_fst_zero font (glyphIndex ascii) px py 8
  refine ⟨h, ?_, ?_⟩
  · intro j h1 h2
    rw [h] at h1
    exact rightmostSetCol_gt (font (glyphIndex ascii)) 8 j h1 h2
  · intro h1
    rw [h] at h1 ⊢
    exact rightmostSetCol_ne (font (glyphIndex ascii)) 8 h1

/-- Claim C3 (counterexample): with the spec-modelled hyphen glyph
(columns 1 to 4 set), DrawChar applied to the hyphen returns 4, the
index of the rightmost set column, while the leftmost set column has
index 1 (column 0 is clear), so the returned width is not the index of
the leftmost set column. -/
theorem drawChar_width_leftmost_cex :
    (drawCharFull simpleFontModel 0x2D 0 0).1 = 4 ∧
    simpleFontModel (glyphIndex 0x2D) 1 ≠ 0 ∧
    simpleFontModel (glyphIndex 0x2D) 0 = 0 ∧
    (4 : Nat) ≠ 1 := by
  refine ⟨by decide, by decide, by decide, by decide⟩

theorem drawChar_width_rightmost_witness :
    simpleFontModel (glyphIndex 200) 7 = 0 :=
  (drawChar_width_rightmost simpleFontModel 200 0 0).2.1 7 (by decide) (by decide)

/-- Claim C9: every ASCII code below 0x20 or above 0x7E is replaced by
the hyphen before any lookup, so DrawChar behaves on it exactly as on
the hyphen character (same returned width, same pixel writes), for
every font, with no error signalled. -/
theorem drawChar_substitutes_hyphen :
    ∀ (font : Nat → Nat → Nat) (ascii : Nat) (px py : Int),
      ascii < 0x20 ∨ 0x7E < ascii →
      drawCharFull font ascii px py = drawCharFull font 0x2D px py := by
  intro font ascii px py h
  unfold drawCharFull glyphIndex
  rw [if_pos h, if_neg (by decide)]

theorem drawChar_substitutes_hyphen_witness :
    drawCharFull simpleFontModel 200 1 2 = drawCharFull simpleFontModel 0x2D 1 2 :=
  drawChar_substitutes_hyphen simpleFontModel 200 1 2 (by decide)

/-- Claim C4 (counterexample): BlendDigits(3, 4, 128, 0, 0) does not
draw digit 4 shifted up by 11 rows (at row origin -11); its SetPixel
writes differ from those of drawing digit 3 at row -4 together with
digit 4 at row -11. -/
theorem blendDigits_shift_cex :
    blendDigitsWrites 3 4 128 0 0 ≠
      drawDigitWrites 3 0 (-4) ++ drawDigitWrites 4 0 (-11) := by
  decide

/-- Claim C4 (amended): BlendDigits(digit1 = 3, digit2 = 4, blend = 128,
x = 0, y = 0) renders digit 3 shifted up by 128 / 32 = 4 rows (drawn at
row origin 0 - 4) and digit 4 seven rows below that, at row origin
0 - 4 + 7 = 3 (shifted up 4 rows from its base position one glyph
height below), both through the numeric glyph lookup table entries for
those digit codes. -/
theorem blendDigits_shift_amended :
    blendDigitsWrites 3 4 128 0 0 =
      drawDigitWrites 3 0 (0 - 4) ++ drawDigitWrites 4 0 (0 - 4 + 7) ∧
    blendDigitsWrites 3 4 128 0 0 =
      [(0, 0), (1, 0), (2, 0),
       (0, 3), (0, 4), (0, 5), (1, 5), (2, 3), (2, 4), (2, 5), (2, 6), (2, 7)] := by
  refine ⟨by decide, by decide⟩

/-- Claim C8 (code behaviour at the failing input): Fill(0x00112233)
(alpha 0, R = 0x11, G = 0x22, B = 0x33) stores the color's G channel in
every pixel's R slot and the color's R channel in the G slot, rather
than the color's R/G/B channels: pixel (0,0) ends as
(R = 0x22, G = 0x11, B = 0x33) although the color's R channel is 0x11
and its G channel is 0x22. -/
theorem fill_swaps_red_green :
    pixelChan (fill 0x00112233 (fun _ => 0)) 0 0 0 = 0x22 ∧
    pixelChan (fill 0x00112233 (fun _ => 0)) 0 0 1 = 0x11 ∧
    pixelChan (fill 0x00112233 (fun _ => 0)) 0 0 2 = 0x33 ∧
    chanOf 0x00112233 0 = 0x11 ∧
    chanOf 0x00112233 1 = 0x22 ∧
    (0x22 : Nat) ≠ 0x11 := by
  refine ⟨by decide, by decide, by decide, by decide, by decide, by decide⟩

/-- Claim C10: GetBaseColor reduces every byte index mod 12 before the
table read, so indices 12 and above alias the twelve base colors
(`getBaseColor (i + 12) = getBaseColor i`), the index actually used is
always below 12, and BlendBaseColors uses exactly the colors
GetBaseColor yields for its two indices. -/
theorem baseColor_index_mod12 :
    ∀ i : Nat,
      getBaseColor i = BaseColors.getD (i % 12) 0 ∧
      i % 12 < 12 ∧
      getBaseColor (i + 12) = getBaseColor i ∧
      ∀ c2 blend fade0 : Nat,
        blendBaseColors i c2 blend fade0 =
          blendARGB (getBaseColor i) (getBaseColor c2) blend fade0 := by
  intro i
  refine ⟨rfl, Nat.mod_lt i (by norm_num), ?_, ?_⟩
  · unfold getBaseColor
    rw [Nat.add_mod_right]
  · intro c2 blend fade0
    rfl

theorem isrClockFrame_partial (t : Nat) :
    ∀ k, k ≤ 124 → isrClockFrame^[k] (0, t) = (8 * k, t) := by
  intro k hk
  induction k with
  | zero => simp
  | succ n ih =>
      rw [Function.iterate_succ_apply', ih (by omega)]
      unfold isrClockFrame
      rw [if_neg (by norm_num; omega)]
      simp only [Prod.mk.injEq]
      norm_num
      omega

theorem isrClockFrame_second (t : Nat) :
    isrClockFrame^[125] (0, t) = (0, todWrap t) := by
  have h := isrClockFrame_partial t 124 (le_refl 124)
  rw [show (125 : Nat) = 124 + 1 from rfl, Function.iterate_succ_apply', h]
  unfold isrClockFrame
  rw [if_pos (by norm_num)]

theorem isrClockFrame_days :
    ∀ n : Nat, isrClockFrame^[125 * n] (0, 0) = (0, n % 86400) := by
  intro n
  induction n with
  | zero => simp
  | succ m ih =>
      rw [show 125 * (m + 1) = 125 + 125 * m by ring, Function.iterate_add_apply,
        ih, isrClockFrame_second]
      unfold todWrap
      rw [Prod.ext_iff]
      refine ⟨rfl, ?_⟩
      dsimp only
      split_ifs <;> omega

/-- Claim C6: the time-of-day counter stays below 86400 across every
periodic timekeeping step, and starting from 0 it reaches 86399 after
86399 one-second increments (125 frames each) and wraps to 0, not
86400, on the next. -/
theorem clock_tod_wraps :
    (∀ ms tod : Nat, tod < 86400 → (isrClockFrame (ms, tod)).2 < 86400) ∧
    isrClockFrame^[125 * 86399] (0, 0) = (0, 86399) ∧
    isrClockFrame^[125 * 86400] (0, 0) = (0, 0) := by
  refine ⟨?_, ?_, ?_⟩
  · intro ms tod h
    unfold isrClockFrame todWrap
    dsimp only
    split_ifs <;> dsimp only <;> omega
  · rw [isrClockFrame_days 86399]
  · rw [isrClockFrame_days 86400]

theorem clock_tod_wraps_witness :
    (isrClockFrame (0, 5)).2 < 86400 :=
  clock_tod_wraps.1 0 5 (by norm_num)

/-- Claim C2 (counterexample): DrawCircle performs no clipping; with the
circle centre at the in-range origin and radius 1, already the first
loop iteration invokes SetPixel at x = -1, outside the framebuffer. -/
theorem drawCircle_unclipped_cex :
    ((-1 : Int), (0 : Int)) ∈ drawCircleWrites 1 0 0 1 ∧
    ¬ inBounds (-1, 0) := by
  refine ⟨by decide, by decide⟩


theorem clipNeg_nonneg : ∀ (w : Nat) (x : Int), 0 ≤ (clipNeg x w).1 ∨ (clipNeg x w).2 = 0 := by
  intro w
  induction w with
  | zero => intro x; right; rfl
  | succ n ih =>
      intro x
      unfold clipNeg
      split_ifs with h
      · exact ih (x + 1)
      · left; omega

theorem hlineDraw_mem :
    ∀ (w : Nat) (x y : Int), 0 ≤ x →
      ∀ p ∈ hlineDraw y x w, 0 ≤ p.1 ∧ p.1 < 8 ∧ p.2 = y := by
  intro w
  induction w with
  | zero => intro x y _ p hp; simp [hlineDraw] at hp
  | succ n ih =>
      intro x y hx p hp
      unfold hlineDraw at hp
      split_ifs at hp with h
      · rcases List.mem_cons.mp hp with rfl | hp
        · exact ⟨hx, h, rfl⟩
        · exact ih (x + 1) y (by omega) p hp
      · simp at hp

theorem hline_safe :
    ∀ (x y : Int) (w : Nat), ∀ p ∈ hlineWrites x y w, inBounds p := by
  intro x y w p hp
  unfold hlineWrites at hp
  split_ifs at hp with hy
  · have hp' : p ∈ hlineDraw y (clipNeg x w).1 (clipNeg x w).2 := hp
    rcases clipNeg_nonneg w x with h0 | h0
    · have h := hlineDraw_mem (clipNeg x w).2 (clipNeg x w).1 y h0 p hp'
      exact ⟨h.1, h.2.1, h.2.2 ▸ hy.1, h.2.2 ▸ hy.2⟩
    · rw [h0] at hp'
      simp [hlineDraw] at hp'
  · simp at hp

theorem vlineDraw_mem :
    ∀ (w : Nat) (y x : Int), 0 ≤ y →
      ∀ p ∈ vlineDraw x y w, p.1 = x ∧ 0 ≤ p.2 ∧ p.2 < 8 := by
  intro w
  induction w with
  | zero => intro y x _ p hp; simp [vlineDraw] at hp
  | succ n ih =>
      intro y x hy p hp
      unfold vlineDraw at hp
      split_ifs at hp with h
      · rcases List.mem_cons.mp hp with rfl | hp
        · exact ⟨rfl, hy, h⟩
        · exact ih (y + 1) x (by omega) p hp
      · simp at hp

theorem vline_safe :
    ∀ (x y : Int) (w : Nat), ∀ p ∈ vlineWrites x y w, inBounds p := by
  intro x y w p hp
  unfold vlineWrites at hp
  split_ifs at hp with hx
  · have hp' : p ∈ vlineDraw x (clipNeg y w).1 (clipNeg y w).2 := hp
    rcases clipNeg_nonneg w y with h0 | h0
    · have h := vlineDraw_mem (clipNeg y w).2 (clipNeg y w).1 x h0 p hp'
      exact ⟨h.1 ▸ hx.1, h.1 ▸ hx.2, h.2.1, h.2.2⟩
    · rw [h0] at hp'
      simp [vlineDraw] at hp'
  · simp at hp

theorem drawRect_safe :
    ∀ (x1 y1 x2 y2 : Int), ∀ p ∈ drawRectWrites x1 y1 x2 y2, inBounds p := by
  intro x1 y1 x2 y2 p hp
  unfold drawRectWrites at hp
  rcases List.mem_append.mp hp with hp | hp
  · rcases List.mem_append.mp hp with hp | hp
    · exact hline_safe x1 y1 (b8i (x2 - x1 + 1)) p hp
    · exact hline_safe x1 y2 (b8i (x2 - x1 + 1)) p hp
  · split_ifs at hp with h
    · rcases List.mem_append.mp hp with hp | hp
      · exact vline_safe x1 (y1 + 1) (b8i (y2 - y1 - 1)) p hp
      · exact vline_safe x2 (y1 + 1) (b8i (y2 - y1 - 1)) p hp
    · simp at hp

theorem fillRowB_mem :
    ∀ (tw : Nat) (tx y : Int), 0 ≤ tx →
      ∀ p ∈ fillRowB y tx tw, 0 ≤ p.1 ∧ p.1 < 8 ∧ p.2 = y := by
  intro tw
  induction tw with
  | zero => intro tx y _ p hp; simp [fillRowB] at hp
  | succ n ih =>
      intro tx y htx p hp
      unfold fillRowB at hp
      split_ifs at hp with h
      · rcases List.mem_cons.mp hp with rfl | hp
        · exact ⟨htx, h, rfl⟩
        · exact ih (tx + 1) y (by omega) p hp
      · simp at hp

theorem fillRowA_mem :
    ∀ (tw : Nat) (tx y : Int), 0 ≤ tx →
      ∀ p ∈ fillRowA y tx tw, 0 ≤ p.1 ∧ p.1 < 8 ∧ p.2 = y := by
  intro tw
  induction tw using Nat.strong_induction_on with
  | _ tw ih =>
      intro tx y htx p hp
      match tw, hp with
      | 0, hp => exact fillRowB_mem 0 tx y htx p hp
      | 1, hp => exact fillRowB_mem 1 tx y htx p hp
      | 2, hp => exact fillRowB_mem 2 tx y htx p hp
      | 3, hp => exact fillRowB_mem 3 tx y htx p hp
      | (n + 4), hp =>
          unfold fillRowA at hp
          split_ifs at hp with h
          · rcases List.mem_cons.mp hp with rfl | hp
            · exact ⟨htx, by omega, rfl⟩
            rcases List.mem_cons.mp hp with rfl | hp
            · exact ⟨by omega, by omega, rfl⟩
            rcases List.mem_cons.mp hp with rfl | hp
            · exact ⟨by omega, by omega, rfl⟩
            rcases List.mem_cons.mp hp with rfl | hp
            · exact ⟨by omega, by omega, rfl⟩
            exact ih n (by omega) (tx + 4) y (by omega) p hp
          · exact fillRowB_mem (n + 4) tx y htx p hp

theorem fillRowA_zero_empty : ∀ (tx y : Int), fillRowA y tx 0 = [] := by
  intro tx y
  rfl

theorem fillRectRows_mem :
    ∀ (h : Nat) (y x : Int) (w : Nat), 0 ≤ x ∨ w = 0 → 0 ≤ y →
      ∀ p ∈ fillRectRows x w y h, inBounds p := by
  intro h
  induction h with
  | zero => intro y x w _ _ p hp; simp [fillRectRows] at hp
  | succ n ih =>
      intro y x w hx hy p hp
      unfold fillRectRows at hp
      split_ifs at hp with h8
      · rcases List.mem_append.mp hp with hp | hp
        · rcases hx with hx | rfl
          · have hmem := fillRowA_mem w x y hx p hp
            exact ⟨hmem.1, hmem.2.1, hmem.2.2 ▸ hy, hmem.2.2 ▸ h8⟩
          · rw [fillRowA_zero_empty] at hp
            simp at hp
        · exact ih (y + 1) x w hx (by omega) p hp
      · simp at hp

theorem fillRect_safe :
    ∀ (x y : Int) (w h : Nat), ∀ p ∈ fillRectWrites x y w h, inBounds p := by
  intro x y w h p hp
  unfold fillRectWrites at hp
  have hp' : p ∈ fillRectRows (clipNeg x w).1 (clipNeg x w).2 (clipNeg y h).1 (clipNeg y h).2 := hp
  rcases clipNeg_nonneg h y with h0 | h0
  · exact fillRectRows_mem (clipNeg y h).2 (clipNeg y h).1 (clipNeg x w).1 (clipNeg x w).2
      (clipNeg_nonneg w x) h0 p hp'
  · rw [h0] at hp'
    simp [fillRectRows] at hp'

theorem fillCircleLoop_safe :
    ∀ (fuel : Nat) (poX poY x y err : Int),
      ∀ p ∈ fillCircleLoop poX poY fuel x y err, inBounds p := by
  intro fuel
  induction fuel with
  | zero => intro poX poY x y err p hp; simp [fillCircleLoop] at hp
  | succ n ih =>
      intro poX poY x y err p hp
      unfold fillCircleLoop at hp
      rcases List.mem_append.mp hp with hp | hp
      · rcases List.mem_append.mp hp with hp | hp
        · exact vline_safe (poX - x) (poY - y) (b8i (2 * y)) p hp
        · exact vline_safe (poX + x) (poY - y) (b8i (2 * y)) p hp
      · split_ifs at hp with h
        · exact ih poX poY _ _ _ p hp
        · simp at hp

theorem drawLineLoop_safe :
    ∀ (fuel : Nat) (x1 y1 dx dy sx sy x0 y0 err : Int),
      ∀ p ∈ drawLineLoop x1 y1 dx dy sx sy fuel x0 y0 err, inBounds p := by
  intro fuel
  induction fuel with
  | zero => intro x1 y1 dx dy sx sy x0 y0 err p hp; simp [drawLineLoop] at hp
  | succ n ih =>
      intro x1 y1 dx dy sx sy x0 y0 err p hp
      unfold drawLineLoop at hp
      rcases List.mem_append.mp hp with hp | hp
      · split_ifs at hp with hg
        · rcases List.mem_cons.mp hp with rfl | hp
          · exact hg
          · simp at hp
        · simp at hp
      · split_ifs at hp
        all_goals
          first
            | simp at hp
            | exact ih x1 y1 dx dy sx sy _ _ _ p hp

theorem digitColAux_mem :
    ∀ (rem y0 : Nat) (cdata : Nat) (plotx py : Int),
      ∀ p ∈ digitColAux cdata plotx py y0 rem, p.1 = plotx ∧ 0 ≤ p.2 ∧ p.2 < 8 := by
  intro rem
  induction rem with
  | zero => intro y0 cdata plotx py p hp; simp [digitColAux] at hp
  | succ n ih =>
      intro y0 cdata plotx py p hp
      unfold digitColAux at hp
      split_ifs at hp with h
      · rcases List.mem_cons.mp hp with rfl | hp
        · exact ⟨rfl, h.1.1, h.1.2⟩
        · exact ih (y0 + 1) cdata plotx py p hp
      · exact ih (y0 + 1) cdata plotx py p hp

theorem digitCols_mem :
    ∀ (rem i0 : Nat) (digit : Nat) (px py : Int),
      ∀ p ∈ digitCols digit px py i0 rem, inBounds p := by
  intro rem
  induction rem with
  | zero => intro i0 digit px py p hp; simp [digitCols] at hp
  | succ n ih =>
      intro i0 digit px py p hp
      unfold digitCols at hp
      rcases List.mem_append.mp hp with hp | hp
      · split_ifs at hp with h
        · have hm := digitColAux_mem 8 0 (numberFontAt digit i0) (px + i0) py p hp
          exact ⟨hm.1 ▸ h.1, hm.1 ▸ h.2, hm.2.1, hm.2.2⟩
        · simp at hp
      · exact ih (i0 + 1) digit px py p hp

theorem drawDigit_safe :
    ∀ (digit : Nat) (px py : Int), ∀ p ∈ drawDigitWrites digit px py, inBounds p := by
  intro digit px py p hp
  exact digitCols_mem 3 0 digit px py p hp

theorem charColWrites_mem :
    ∀ (rem f0 : Nat) (col : Nat) (x py : Int),
      ∀ p ∈ charColWrites col x py f0 rem, p.1 = x := by
  intro rem
  induction rem with
  | zero => intro f0 col x py p hp; simp [charColWrites] at hp
  | succ n ih =>
      intro f0 col x py p hp
      unfold charColWrites at hp
      split_ifs at hp with h
      · rcases List.mem_cons.mp hp with rfl | hp
        · rfl
        · exact ih (f0 + 1) col x py p hp
      · exact ih (f0 + 1) col x py p hp

theorem drawCharLoop_mem :
    ∀ (n : Nat) (font : Nat → Nat → Nat) (g width : Nat) (px py : Int),
      ∀ p ∈ (drawCharLoop font g px py n width).2, 0 ≤ p.1 ∧ p.1 < 8 := by
  intro n
  induction n with
  | zero => intro font g width px py p hp; simp [drawCharLoop] at hp
  | succ n ih =>
      intro font g width px py p hp
      unfold drawCharLoop at hp
      dsimp only at hp
      by_cases hcol : font g n ≠ 0
      · rw [if_pos hcol] at hp
        dsimp only at hp
        rcases List.mem_append.mp hp with hp | hp
        · split_ifs at hp with h
          · have hm := charColWrites_mem 8 0 (font g n) (px + n) py p hp
            exact ⟨hm ▸ h.1, hm ▸ h.2⟩
          · simp at hp
        · exact ih font g _ px py p hp
      · rw [if_neg hcol] at hp
        exact ih font g width px py p hp

/-- Claim C2 (amended): HLine, VLine, DrawRect, FillRect, FillCircle,
DrawLine and DrawDigit never invoke SetPixel outside the framebuffer,
for every argument tuple including partially or fully off-buffer
shapes; DrawChar clips its x coordinate (every write has x in
[0, width)) but does not clip y; DrawCircle performs no clipping at
all (see the counterexample). -/
theorem shape_clipping_amended :
    (∀ (x y : Int) (w : Nat), ∀ p ∈ hlineWrites x y w, inBounds p) ∧
    (∀ (x y : Int) (w : Nat), ∀ p ∈ vlineWrites x y w, inBounds p) ∧
    (∀ x1 y1 x2 y2 : Int, ∀ p ∈ drawRectWrites x1 y1 x2 y2, inBounds p) ∧
    (∀ (x y : Int) (w h : Nat), ∀ p ∈ fillRectWrites x y w h, inBounds p) ∧
    (∀ (fuel : Nat) (poX poY : Int) (r : Nat),
      ∀ p ∈ fillCircleWrites fuel poX poY r, inBounds p) ∧
    (∀ (fuel : Nat) (x0 y0 x1 y1 : Int),
      ∀ p ∈ drawLineWrites fuel x0 y0 x1 y1, inBounds p) ∧
    (∀ (digit : Nat) (px py : Int), ∀ p ∈ drawDigitWrites digit px py, inBounds p) ∧
    (∀ (font : Nat → Nat → Nat) (ascii : Nat) (px py : Int),
      ∀ p ∈ (drawCharFull font ascii px py).2, 0 ≤ p.1 ∧ p.1 < 8) := by
  refine ⟨hline_safe, vline_safe, drawRect_safe, fillRect_safe, ?_, ?_, drawDigit_safe, ?_⟩
  · intro fuel poX poY r p hp
    exact fillCircleLoop_safe fuel poX poY _ _ _ p hp
  · intro fuel x0 y0 x1 y1 p hp
    exact drawLineLoop_safe fuel x1 y1 _ _ _ _ x0 y0 _ p hp
  · intro font ascii px py p hp
    exact drawCharLoop_mem 8 font (glyphIndex ascii) 0 px py p hp

theorem shape_clipping_amended_witness :
    inBounds ((0 : Int), (2 : Int)) ∧ inBounds ((2 : Int), (2 : Int)) :=
  ⟨shape_clipping_amended.1 (-3) 2 6 (0, 2) (by decide),
   shape_clipping_amended.2.2.2.2.2.1 50 2 2 2 2 (2, 2) (by decide)⟩

theorem setPixel_in_range (x y c : Nat) (buf : Nat → Nat) (hx : x < 8) (hy : y < 8)
    (ch : Nat) (hch : ch < 3) :
    pixelChan (setPixel x y c buf) x y ch =
      if 255 - alphaOf c ≠ 0 then
        ((255 - alphaOf c) * pixelChan buf x y ch + alphaOf c * chanOf c ch) % 65536 / 256
      else chanOf c ch := by
  interval_cases ch
  · simp only [setPixel, pixelChan, pixIdx, alphaOf, chanOf]
    norm_num
    split_ifs with ha <;> simp only [wrI, rdI] <;>
      rw [if_pos (by omega)] <;>
      try rw [if_neg (by omega), if_neg (by omega)] <;>
      try rw [show ((3 : Int) * (7 - (x : Int) + (y : Int) * 8)).toNat =
        3 * (7 - x + y * 8) from by omega]
  · simp only [setPixel, pixelChan, pixIdx, alphaOf, chanOf]
    norm_num
    split_ifs with ha <;> simp only [wrI, rdI] <;>
      rw [if_neg (by omega), if_pos (by omega)] <;>
      try rw [if_neg (by omega)] <;>
      try rw [show ((2 : Int) + 3 * (7 - (x : Int) + (y : Int) * 8) - 1).toNat =
        3 * (7 - x + y * 8) + 1 from by omega]
  · simp only [setPixel, pixelChan, pixIdx, alphaOf, chanOf]
    norm_num
    split_ifs with ha <;> simp only [wrI, rdI] <;>
      rw [if_neg (by omega), if_neg (by omega), if_pos (by omega)] <;>
      try rw [show ((2 : Int) + 3 * (7 - (x : Int) + (y : Int) * 8)).toNat =
        3 * (7 - x + y * 8) + 2 from by omega]

/-- Claim C1 (amended): for every in-range coordinate and every packed
color with alpha byte `a`, when `a` is not 255 SetPixel updates each
channel to `((255-a)*bg + a*fg) / 256` with truncating division (where
`bg` is the prior channel value and `fg` the color's channel); when
`a = 255` the pixel's channels become exactly the color's R/G/B values
(direct overwrite); and when `a = 0` each channel becomes
`255*bg / 256`, so the pixel is approximately, but not exactly, left
unchanged (no write is skipped). -/
theorem setPixel_blend_amended :
    ∀ (x y c : Nat) (buf : Nat → Nat), x < 8 → y < 8 → (∀ m, buf m ≤ 255) →
      ∀ ch : Nat, ch < 3 →
        (alphaOf c ≠ 255 →
          pixelChan (setPixel x y c buf) x y ch =
            ((255 - alphaOf c) * pixelChan buf x y ch + alphaOf c * chanOf c ch) / 256) ∧
        (alphaOf c = 255 →
          pixelChan (setPixel x y c buf) x y ch = chanOf c ch) ∧
        (alphaOf c = 0 →
          pixelChan (setPixel x y c buf) x y ch = 255 * pixelChan buf x y ch / 256) := by
  intro x y c buf hx hy hb ch hch
  have ha255 : alphaOf c ≤ 255 := by
    unfold alphaOf
    omega
  have hch255 : chanOf c ch ≤ 255 := by
    unfold chanOf
    split_ifs <;> omega
  have hbg : pixelChan buf x y ch ≤ 255 := hb (pixIdx x y ch)
  have hmod : ((255 - alphaOf c) * pixelChan buf x y ch + alphaOf c * chanOf c ch) < 65536 := by
    have h1 : (255 - alphaOf c) * pixelChan buf x y ch ≤ (255 - alphaOf c) * 255 :=
      Nat.mul_le_mul_left _ hbg
    have h2 : alphaOf c * chanOf c ch ≤ alphaOf c * 255 :=
      Nat.mul_le_mul_left _ hch255
    have h3 : (255 - alphaOf c) * 255 + alphaOf c * 255 ≤ 255 * 255 := by
      have : (255 - alphaOf c) + alphaOf c = 255 := by omega
      nlinarith [this]
    omega
  have hkey := setPixel_in_range x y c buf hx hy ch hch
  refine ⟨?_, ?_, ?_⟩
  · intro ha
    rw [hkey, if_pos (by omega), Nat.mod_eq_of_lt hmod]
  · intro ha
    rw [hkey, if_neg (by omega)]
  · intro ha
    rw [hkey, if_pos (by omega), Nat.mod_eq_of_lt hmod, ha]
    norm_num

/-- Claim C1 (counterexample): with alpha byte 255 a write does occur
and it overwrites the pixel (color 0xFF090909 on background 7 yields 9,
not the unchanged 7), and with alpha byte 0 the pixel does not become
the color's channel values (color 0x00C8C8C8 with channels 200 on
background 100 yields 99, not 200). -/
theorem setPixel_alpha_edge_cex :
    pixelChan (setPixel 0 0 0xFF090909 (fun _ => 7)) 0 0 0 = 9 ∧
    (9 : Nat) ≠ 7 ∧
    alphaOf 0xFF090909 = 255 ∧
    pixelChan (setPixel 0 0 0x00C8C8C8 (fun _ => 100)) 0 0 1 = 99 ∧
    (99 : Nat) ≠ 200 ∧
    alphaOf 0x00C8C8C8 = 0 ∧
    chanOf 0x00C8C8C8 1 = 200 := by
  refine ⟨by decide, by decide, by decide, by decide, by decide, by decide, by decide⟩

theorem setPixel_blend_amended_witness :
    pixelChan (setPixel 1 2 0x00112233 (fun _ => 64)) 1 2 1 =
      255 * pixelChan (fun _ => 64) 1 2 1 / 256 :=
  (setPixel_blend_amended 1 2 0x00112233 (fun _ => 64) (by decide) (by decide)
    (fun m => (by decide : (64 : Nat) ≤ 255)) 1 (by decide)).2.2 (by decide)

theorem fadeRun_apply (alpha : Nat) :
    ∀ (j p : Nat) (buf : Nat → Nat) (m : Nat),
      fadeRun alpha j p buf m =
        if p ≤ m ∧ m < p + j then alpha * buf m % 65536 / 256 else buf m := by
  intro j
  induction j with
  | zero =>
      intro p buf m
      unfold fadeRun
      rw [if_neg (by omega)]
  | succ n ih =>
      intro p buf m
      unfold fadeRun
      rw [ih (p + 1) (fadeCell alpha p buf) m]
      unfold fadeCell wrN
      by_cases hm : m = p
      · subst hm
        rw [if_neg (by omega), if_pos rfl, if_pos (by omega)]
      · rw [if_neg hm]
        split_ifs <;> first | rfl | omega

theorem fadeLoop_apply (alpha : Nat) :
    ∀ (cnt p : Nat) (buf : Nat → Nat) (m : Nat),
      fadeLoop alpha cnt p buf m =
        if p ≤ m ∧ m < p + 12 * cnt then alpha * buf m % 65536 / 256 else buf m := by
  intro cnt
  induction cnt with
  | zero =>
      intro p buf m
      unfold fadeLoop
      rw [if_neg (by omega)]
  | succ n ih =>
      intro p buf m
      unfold fadeLoop
      rw [ih (p + 12) (fadeRun alpha 12 p buf) m, fadeRun_apply alpha 12 p buf m]
      by_cases h1 : p + 12 ≤ m ∧ m < p + 12 + 12 * n
      · rw [if_pos h1, if_neg (by omega), if_pos (by omega)]
      · rw [if_neg h1]
        by_cases h2 : p ≤ m ∧ m < p + 12
        · rw [if_pos h2, if_pos (by omega)]
        · rw [if_neg h2, if_neg (by omega)]

theorem fade_apply (alpha : Nat) (buf : Nat → Nat) (m : Nat) :
    fade alpha buf m = if m < 192 then alpha * buf m % 65536 / 256 else buf m := by
  unfold fade
  rw [fadeLoop_apply alpha 16 0 buf m]
  by_cases h : m < 192
  · rw [if_pos (by omega), if_pos h]
  · rw [if_neg (by omega), if_neg h]

theorem fade255_byte_le (b : Nat) : 255 * b % 65536 / 256 ≤ b := by
  by_cases hb : b ≤ 255
  · have h1 : 255 * b < 65536 := by
      have := Nat.mul_le_mul_left 255 hb
      omega
    rw [Nat.mod_eq_of_lt h1]
    omega
  · have h1 : 255 * b % 65536 < 65536 := Nat.mod_lt _ (by norm_num)
    omega

theorem fade255_byte_pred (b : Nat) (hb : b ≤ 255) : 255 * b % 65536 / 256 = b - 1 := by
  have h1 : 255 * b < 65536 := by
    have := Nat.mul_le_mul_left 255 hb
    omega
  rw [Nat.mod_eq_of_lt h1]
  omega

theorem fade255_iter (n : Nat) :
    ∀ (buf : Nat → Nat) (m : Nat), m < 192 →
      (fade 255)^[n] buf m = (fun b => 255 * b % 65536 / 256)^[n] (buf m) := by
  induction n with
  | zero => intro buf m _; rfl
  | succ n ih =>
      intro buf m hm
      rw [Function.iterate_succ_apply, Function.iterate_succ_apply,
        ih (fade 255 buf) m hm, fade_apply 255 buf m, if_pos hm]

theorem fade255_chain (n : Nat) :
    ∀ b : Nat, b ≤ 255 →
      (fun c => 255 * c % 65536 / 256)^[n] b ≤ 255 ∧
      (fun c => 255 * c % 65536 / 256)^[n + 1] b ≤ (fun c => 255 * c % 65536 / 256)^[n] b := by
  induction n with
  | zero =>
      intro b hb
      refine ⟨hb, ?_⟩
      simpa using fade255_byte_le b
  | succ n ih =>
      intro b hb
      rw [Function.iterate_succ_apply, Function.iterate_succ_apply]
      exact ih (255 * b % 65536 / 256) (le_trans (fade255_byte_le b) hb)

theorem fade255_iter_zero (n : Nat) :
    ∀ b : Nat, b ≤ n → b ≤ 255 → (fun c => 255 * c % 65536 / 256)^[n] b = 0 := by
  induction n with
  | zero =>
      intro b h1 _
      interval_cases b
      rfl
  | succ n ih =>
      intro b h1 h2
      rw [Function.iterate_succ_apply]
      refine ih (255 * b % 65536 / 256) ?_ ?_
      · rw [fade255_byte_pred b h2]
        omega
      · rw [fade255_byte_pred b h2]
        omega

/-- Claim C7: a single Fade(255) never increases any channel byte and
changes it by at most 1; repeated application is monotonically
non-increasing per channel and reaches 0 (after at most 255
applications for byte-valued channels). -/
theorem fade255_monotone :
    ∀ (buf : Nat → Nat) (m : Nat), m < 192 → buf m ≤ 255 →
      fade 255 buf m ≤ buf m ∧
      buf m - fade 255 buf m ≤ 1 ∧
      (∀ n : Nat, (fade 255)^[n + 1] buf m ≤ (fade 255)^[n] buf m) ∧
      (fade 255)^[255] buf m = 0 := by
  intro buf m hm hb
  refine ⟨?_, ?_, ?_, ?_⟩
  · rw [fade_apply, if_pos hm]
    exact fade255_byte_le (buf m)
  · rw [fade_apply, if_pos hm, fade255_byte_pred (buf m) hb]
    omega
  · intro n
    rw [fade255_iter (n + 1) buf m hm, fade255_iter n buf m hm]
    exact (fade255_chain n (buf m) hb).2
  · rw [fade255_iter 255 buf m hm]
    exact fade255_iter_zero 255 (buf m) hb hb

theorem fade255_monotone_witness :
    fade 255 (fun _ => 200) 5 ≤ 200 ∧ (fade 255)^[255] (fun _ => 200) 5 = 0 :=
  ⟨(fade255_monotone (fun _ => 200) 5 (by decide) (by decide)).1,
   (fade255_monotone (fun _ => 200) 5 (by decide) (by decide)).2.2.2⟩

theorem copy3_apply (k : Nat) (pto : Int) (buf : Nat → Nat) (hpre : 3 * k + 2 ≤ pto) :
    ∀ m : Nat, copy3 k pto buf m =
      if pto - 2 ≤ (m : Int) ∧ (m : Int) ≤ pto then rdI buf ((m : Int) - 3 * k) else buf m := by
  intro m
  simp only [copy3, wrI, rdI]
  split_ifs <;> first | rfl | omega | (congr 1; omega)

theorem zero3_apply (pto : Int) (buf : Nat → Nat) :
    ∀ m : Nat, zero3 pto buf m =
      if pto - 2 ≤ (m : Int) ∧ (m : Int) ≤ pto then 0 else buf m := by
  intro m
  simp only [zero3, wrI]
  split_ifs <;> first | rfl | omega

theorem scrollShiftLoop_succ (k cnt : Nat) (pto : Int) (buf : Nat → Nat) :
    scrollShiftLoop k (cnt + 1) pto buf = scrollShiftLoop k cnt (pto - 3) (copy3 k pto buf) := rfl

theorem scrollZeroLoop_succ (cnt : Nat) (pto : Int) (buf : Nat → Nat) :
    scrollZeroLoop (cnt + 1) pto buf = scrollZeroLoop cnt (pto - 3) (zero3 pto buf) := rfl

theorem scrollShiftLoop_spec (k : Nat) :
    ∀ (cnt : Nat) (pto : Int) (buf : Nat → Nat), 3 * cnt + 3 * k ≤ pto + 1 →
      (scrollShiftLoop k cnt pto buf).1 = pto - 3 * cnt ∧
      ∀ m : Nat, (scrollShiftLoop k cnt pto buf).2 m =
        if pto - 3 * cnt < (m : Int) ∧ (m : Int) ≤ pto then rdI buf ((m : Int) - 3 * k)
        else buf m := by
  intro cnt
  induction cnt with
  | zero =>
      intro pto buf _
      refine ⟨by simp [scrollShiftLoop], ?_⟩
      intro m
      show buf m = _
      split_ifs <;> first | rfl | omega
  | succ n ih =>
      intro pto buf hpre
      rw [scrollShiftLoop_succ]
      obtain ⟨ih1, ih2⟩ := ih (pto - 3) (copy3 k pto buf) (by omega)
      refine ⟨by rw [ih1]; omega, ?_⟩
      intro m
      rw [ih2 m, copy3_apply k pto buf (by omega) m]
      simp only [rdI]
      rw [copy3_apply k pto buf (by omega) ((m : Int) - 3 * k).toNat]
      split_ifs <;> first | rfl | omega | (congr 1; omega)

theorem scrollZeroLoop_spec :
    ∀ (cnt : Nat) (pto : Int) (buf : Nat → Nat),
      (scrollZeroLoop cnt pto buf).1 = pto - 3 * cnt ∧
      ∀ m : Nat, (scrollZeroLoop cnt pto buf).2 m =
        if pto - 3 * cnt < (m : Int) ∧ (m : Int) ≤ pto then 0 else buf m := by
  intro cnt
  induction cnt with
  | zero =>
      intro pto buf
      refine ⟨by simp [scrollZeroLoop], ?_⟩
      intro m
      show buf m = _
      split_ifs <;> first | rfl | omega
  | succ n ih =>
      intro pto buf
      rw [scrollZeroLoop_succ]
      obtain ⟨ih1, ih2⟩ := ih (pto - 3) (zero3 pto buf)
      refine ⟨by rw [ih1]; omega, ?_⟩
      intro m
      rw [ih2 m, zero3_apply pto buf m]
      split_ifs <;> first | rfl | omega

theorem scrollLines_succ (k line : Nat) (pto : Int) (buf : Nat → Nat) :
    scrollLines k (line + 1) pto buf =
      scrollLines k line
        ((scrollZeroLoop k (scrollShiftLoop k (b8i (8 - (k : Int))) pto buf).1
          (scrollShiftLoop k (b8i (8 - (k : Int))) pto buf).2).1 + 48)
        (scrollZeroLoop k (scrollShiftLoop k (b8i (8 - (k : Int))) pto buf).1
          (scrollShiftLoop k (b8i (8 - (k : Int))) pto buf).2).2 := rfl

theorem b8i_shift (k : Nat) (hk : k < 8) : b8i (8 - (k : Int)) = 8 - k := by
  unfold b8i
  omega

theorem scrollLines_spec (k : Nat) (hk : k < 8) :
    ∀ n : Nat, n ≤ 8 → ∀ (buf : Nat → Nat) (m : Nat),
      scrollLines k n (((24 * (8 - n) + 23 : Nat) : Int)) buf m =
        if 24 * (8 - n) ≤ m ∧ m < 192 then
          (if 3 * k ≤ m % 24 then buf (m - 3 * k) else 0)
        else buf m := by
  intro n
  induction n with
  | zero =>
      intro _ buf m
      show buf m = _
      split_ifs <;> first | rfl | omega
  | succ n ih =>
      intro hn buf m
      rw [scrollLines_succ, b8i_shift k hk]
      have hpre : 3 * ((8 - k : Nat) : Int) + 3 * (k : Int) ≤ ((24 * (8 - (n+1)) + 23 : Nat) : Int) + 1 := by
        omega
      obtain ⟨hs1, hs2⟩ := scrollShiftLoop_spec k (8 - k) ((24 * (8 - (n+1)) + 23 : Nat) : Int) buf hpre
      obtain ⟨hz1, hz2⟩ := scrollZeroLoop_spec k
        (scrollShiftLoop k (8 - k) ((24 * (8 - (n+1)) + 23 : Nat) : Int) buf).1
        (scrollShiftLoop k (8 - k) ((24 * (8 - (n+1)) + 23 : Nat) : Int) buf).2
      rw [hs1] at hz1 hz2
      rw [hs1, hz1]
      have harg : ((24 * (8 - (n+1)) + 23 : Nat) : Int) - 3 * ((8 - k : Nat) : Int) - 3 * (k : Int) + 48 =
          ((24 * (8 - n) + 23 : Nat) : Int) := by
        omega
      rw [harg, ih (by omega)]
      by_cases hband : 24 * (8 - n) ≤ m ∧ m < 192
      · rw [if_pos hband]
        by_cases hsh : 3 * k ≤ m % 24
        · rw [if_pos hsh, if_pos (by omega), if_pos hsh]
          rw [hz2 (m - 3 * k), hs2 (m - 3 * k)]
          rw [if_neg (by omega), if_neg (by omega)]
        · rw [if_neg hsh, if_pos (by omega), if_neg hsh]
      · rw [if_neg hband]
        rw [hz2 m, hs2 m]
        by_cases hcur : 24 * (8 - (n + 1)) ≤ m ∧ m < 192
        · rw [if_pos hcur]
          by_cases hsh : 3 * k ≤ m % 24
          · rw [if_pos hsh, if_neg (by omega), if_pos (by omega)]
            simp only [rdI]
            congr 1
            omega
          · rw [if_neg hsh, if_pos (by omega)]
        · rw [if_neg hcur, if_neg (by omega), if_neg (by omega)]

/-- Claim C5: for every step count k below the width and every buffer,
after ScrollLeft(k) each row's column x holds that row's previous
column x + k for x + k < 8, and channel value 0 (full black) for
x + k >= 8. -/
theorem scrollLeft_spec :
    ∀ (k : Nat) (buf : Nat → Nat) (x y ch : Nat), k < 8 → x < 8 → y < 8 → ch < 3 →
      pixelChan (scrollLeft k buf) x y ch =
        if x + k < 8 then pixelChan buf (x + k) y ch else 0 := by
  intro k buf x y ch hk hx hy hch
  unfold scrollLeft pixelChan
  have h := scrollLines_spec k hk 8 (le_refl 8) buf (pixIdx x y ch)
  rw [show ((24 * (8 - 8) + 23 : Nat) : Int) = (23 : Int) from by norm_num] at h
  rw [h]
  unfold pixIdx
  by_cases hxk : x + k < 8
  · rw [if_pos hxk, if_pos (by omega), if_pos (by omega)]
    congr 1
    omega
  · rw [if_neg hxk, if_pos (by omega), if_neg (by omega)]

theorem scrollLeft_spec_witness :
    pixelChan (scrollLeft 2 (fun m => m % 251)) 3 1 1 =
      if 3 + 2 < 8 then pixelChan (fun m => m % 251) (3 + 2) 1 1 else 0 :=
  scrollLeft_spec 2 (fun m => m % 251) 3 1 1 (by decide) (by decide) (by decide) (by decide)
